import Mathlib

/-!
Verification of the methane-gene analysis pipeline
(`Scripts/03_downstream/analyze_methane_genes.py` and
`Scripts/03_downstream/visualize_results.py`).

Strings are embedded as `List Char`; the Python regular-expression match
used by `extract_gene_info`, Python's `str.split` / `str.strip` /
`str.lower` / `str.replace` / substring containment, and the pandas
group-by aggregations are translated into executable Lean functions.
Rational numbers stand in for Python floats; a float division whose
denominator is zero (which yields a non-finite value in numpy) is
modelled as `none`.
-/

/-- Whitespace characters recognised by Python's `str.strip` and `\s`
(ASCII range, which is all that occurs in the data). -/
def wsChar (c : Char) : Bool :=
  c = ' ' || c = '\t' || c = '\n' || c = '\r' || c = Char.ofNat 11 || c = Char.ofNat 12

/-- Python `str.strip()`: drop leading and trailing whitespace. -/
def pyStrip (s : List Char) : List Char :=
  ((s.dropWhile wsChar).reverse.dropWhile wsChar).reverse

/-- ASCII lower-casing of one character (Python `str.lower` on the
ASCII descriptions that occur here). -/
def lowerChar (c : Char) : Char :=
  if 'A' ≤ c ∧ c ≤ 'Z' then Char.ofNat (c.toNat + 32) else c

/-- Python `str.lower()`. -/
def pyLower (s : List Char) : List Char := s.map lowerChar

/-- Python substring containment `pat in s`. -/
def isSubstring (pat : List Char) : List Char → Bool
  | [] => pat.isEmpty
  | c :: rest => pat.isPrefixOf (c :: rest) || isSubstring pat rest

/-- Python `s.split(sep)` for a one-character separator: always returns
at least one (possibly empty) field. -/
def pySplit (sep : Char) : List Char → List (List Char)
  | [] => [[]]
  | c :: rest =>
    match pySplit sep rest with
    | [] => [[]]
    | h :: t => if c = sep then [] :: h :: t else (c :: h) :: t

/-!
## `extract_gene_info` (analyze_methane_genes.py lines 24-32)

The Python code runs `re.match(r'^(.+?)\s+\[(.+?)\]', description)` and
returns `(group(1).strip(), group(2).strip())` on success and
`(description, "Unknown")` on failure.  The pattern is not anchored at
the end of the string.  We embed the backtracking semantics directly:
the first capture group is lazy, so the engine tries every end position
for group 1 from left to right; after group 1 it needs a nonempty
whitespace run immediately followed by `[`; group 2 is lazy, so it ends
at the first `]` that leaves group 2 nonempty; `.` does not match a
newline.
-/

/-- After an opening `[`: capture the shortest nonempty newline-free
run of characters that is followed by `]` (the lazy group 2 plus its
closing bracket). `acc` holds the reversed characters read so far. -/
def group2Scan (acc : List Char) : List Char → Option (List Char)
  | [] => none
  | c :: rest =>
    if c = ']' then some acc.reverse
    else if c = '\n' then none
    else group2Scan (c :: acc) rest

/-- Group 2 of the pattern: at least one newline-free character, then `]`. -/
def group2 : List Char → Option (List Char)
  | [] => none
  | c :: rest => if c = '\n' then none else group2Scan [c] rest

/-- After the first whitespace character: consume further whitespace
until an opening `[`; any other character kills the match attempt. -/
def skipWs : List Char → Option (List Char)
  | [] => none
  | c :: rest => if c = '[' then some rest else if wsChar c then skipWs rest else none

/-- Python `\s+\[` of the pattern: a nonempty whitespace run immediately
followed by `[`; returns the characters after the `[`. -/
def wsBracket : List Char → Option (List Char)
  | [] => none
  | c :: rest => if wsChar c then skipWs rest else none

/-- The backtracking search for `^(.+?)\s+\[(.+?)\]`: `acc` is the
reversed group-1 candidate; at each position we first try to close
group 1 here, and otherwise extend it by one (non-newline) character. -/
def geneInfoScan (acc : List Char) : List Char → Option (List Char × List Char)
  | [] => none
  | c :: rest =>
    match wsBracket (c :: rest) with
    | some u =>
      match group2 u with
      | some g2 => some (acc.reverse, g2)
      | none => if c = '\n' then none else geneInfoScan (c :: acc) rest
    | none => if c = '\n' then none else geneInfoScan (c :: acc) rest

/-- Python `re.match(r'^(.+?)\s+\[(.+?)\]', s)`: group 1 needs at least one
non-newline character. -/
def pyGeneInfoMatch : List Char → Option (List Char × List Char)
  | [] => none
  | c :: rest => if c = '\n' then none else geneInfoScan [c] rest

/-- Python `extract_gene_info` (lines 24-32): gene name and species from a hit
description. -/
def extract_gene_info (description : List Char) : List Char × List Char :=
  match pyGeneInfoMatch description with
  | some (g1, g2) => (pyStrip g1, pyStrip g2)
  | none => (description, "Unknown".data)

/-- A whitespace character immediately followed by `[` occurs somewhere
in the string (necessary for the `extract_gene_info` pattern to match). -/
def hasWsBracket : List Char → Bool
  | a :: b :: rest => (wsChar a && b = '[') || hasWsBracket (b :: rest)
  | _ => false

/-- The last character of the string is not whitespace (trivially true
for the empty string). -/
def lastNonWs : List Char → Bool
  | [] => true
  | [c] => !(wsChar c)
  | _ :: c :: rest => lastNonWs (c :: rest)

/-!
## `classify_methane_gene` (analyze_methane_genes.py lines 83-113)

An if/elif chain of keyword-membership tests over the lower-cased
description, first match wins.
-/

/-- Python `any(x in desc_lower for x in keys)`. -/
def anyKey (dl : List Char) (keys : List (List Char)) : Bool :=
  keys.any (fun k => isSubstring k dl)

def catPMMO : List Char := "pMMO (Particulate methane monooxygenase)".data
def catSMMO : List Char := "sMMO (Soluble methane monooxygenase)".data
def catMmoR : List Char := "MmoR (MMO regulatory protein)".data
def catMmoG : List Char := "MmoG (MMO chaperone)".data
def catMCR : List Char := "MCR (Methyl-coenzyme M reductase)".data
def catMDH : List Char := "MDH (Methanol dehydrogenase)".data
def catFormaldehyde : List Char := "Formaldehyde metabolism".data
def catFormate : List Char := "Formate metabolism".data
def catNitrogen : List Char := "Nitrogen metabolism (related)".data
def catOther : List Char := "Other".data

/-- Python `classify_methane_gene` (lines 83-113), translated branch by branch. -/
def classify_methane_gene (description : List Char) : List Char :=
  let dl := pyLower description
  if anyKey dl ["particulate methane monooxygenase".data, "pmoa".data] then catPMMO
  else if anyKey dl ["soluble methane monooxygenase".data, "mmox".data, "mmoy".data, "mmoz".data] then catSMMO
  else if isSubstring "mmor".data dl then catMmoR
  else if isSubstring "mmog".data dl then catMmoG
  else if anyKey dl ["methyl-coenzyme m reductase".data, "mcra".data, "mcrb".data, "mcrg".data] then catMCR
  else if isSubstring "methanol dehydrogenase".data dl then catMDH
  else if isSubstring "formaldehyde".data dl then catFormaldehyde
  else if isSubstring "formate".data dl then catFormate
  else if anyKey dl ["ammonia".data, "ammonium".data] then catNitrogen
  else catOther

/-- The classifier's rule table in its exact evaluation order: keyword
group and resulting category, first match wins, `Other` as fallback. -/
def rules : List (List (List Char) × List Char) :=
  [ (["particulate methane monooxygenase".data, "pmoa".data], catPMMO)
  , (["soluble methane monooxygenase".data, "mmox".data, "mmoy".data, "mmoz".data], catSMMO)
  , (["mmor".data], catMmoR)
  , (["mmog".data], catMmoG)
  , (["methyl-coenzyme m reductase".data, "mcra".data, "mcrb".data, "mcrg".data], catMCR)
  , (["methanol dehydrogenase".data], catMDH)
  , (["formaldehyde".data], catFormaldehyde)
  , (["formate".data], catFormate)
  , (["ammonia".data, "ammonium".data], catNitrogen) ]

/-- Ordered first-match-wins evaluation of a rule table. -/
def classifyRules : List (List (List Char) × List Char) → List Char → List Char
  | [], _ => catOther
  | (keys, cat) :: rest, dl => if anyKey dl keys then cat else classifyRules rest dl

/-!
## Taxonomy parsing (`extract_taxonomy_levels`, lines 45-69)
-/

/-- The seven taxonomic ranks of the parsed record. -/
inductive Rank | domain | phylum | cls | ordo | family | genus | species
deriving DecidableEq

/-- The 7-rank record produced by `extract_taxonomy_levels` (`class`
and `order` are spelt `cls` and `ordo`). -/
structure TaxLevels where
  domain : List Char
  phylum : List Char
  cls : List Char
  ordo : List Char
  family : List Char
  genus : List Char
  species : List Char
deriving DecidableEq

def TaxLevels.get : TaxLevels → Rank → List Char
  | lv, .domain => lv.domain
  | lv, .phylum => lv.phylum
  | lv, .cls => lv.cls
  | lv, .ordo => lv.ordo
  | lv, .family => lv.family
  | lv, .genus => lv.genus
  | lv, .species => lv.species

/-- Update one rank field. -/
def TaxLevels.set : TaxLevels → Rank → List Char → TaxLevels
  | lv, .domain, v => { lv with domain := v }
  | lv, .phylum, v => { lv with phylum := v }
  | lv, .cls, v => { lv with cls := v }
  | lv, .ordo, v => { lv with ordo := v }
  | lv, .family, v => { lv with family := v }
  | lv, .genus, v => { lv with genus := v }
  | lv, .species, v => { lv with species := v }

/-- The initial dictionary: every rank is `"Unknown"`. -/
def allUnknown : TaxLevels :=
  ⟨"Unknown".data, "Unknown".data, "Unknown".data, "Unknown".data,
   "Unknown".data, "Unknown".data, "Unknown".data⟩

/-- Rank markers `d__`, `p__`, `c__`, `o__`, `f__`, `g__`, `s__`. -/
def rankPre : Rank → List Char
  | .domain => ['d', '_', '_']
  | .phylum => ['p', '_', '_']
  | .cls => ['c', '_', '_']
  | .ordo => ['o', '_', '_']
  | .family => ['f', '_', '_']
  | .genus => ['g', '_', '_']
  | .species => ['s', '_', '_']

/-- Python `s.replace(x, '')` for a three-character `x`: delete every
(leftmost-first, non-overlapping) occurrence of `[a, b, c]`. -/
def stripAll3 (a b c : Char) : List Char → List Char
  | x :: y :: z :: rest =>
    if x = a ∧ y = b ∧ z = c then stripAll3 a b c rest
    else x :: stripAll3 a b c (y :: z :: rest)
  | other => other

/-- Python `part.replace(marker, '')` for the given rank's marker. -/
def rankStrip (r : Rank) (part : List Char) : List Char :=
  match r with
  | .domain => stripAll3 'd' '_' '_' part
  | .phylum => stripAll3 'p' '_' '_' part
  | .cls => stripAll3 'c' '_' '_' part
  | .ordo => stripAll3 'o' '_' '_' part
  | .family => stripAll3 'f' '_' '_' part
  | .genus => stripAll3 'g' '_' '_' part
  | .species => stripAll3 's' '_' '_' part

/-- One loop iteration of `extract_taxonomy_levels` (lines 53-67): the
if/elif chain over `part.startswith(marker)` that overwrites the
matching rank. -/
def applySegment (lv : TaxLevels) (part : List Char) : TaxLevels :=
  if (rankPre .domain).isPrefixOf part then { lv with domain := rankStrip .domain part }
  else if (rankPre .phylum).isPrefixOf part then { lv with phylum := rankStrip .phylum part }
  else if (rankPre .cls).isPrefixOf part then { lv with cls := rankStrip .cls part }
  else if (rankPre .ordo).isPrefixOf part then { lv with ordo := rankStrip .ordo part }
  else if (rankPre .family).isPrefixOf part then { lv with family := rankStrip .family part }
  else if (rankPre .genus).isPrefixOf part then { lv with genus := rankStrip .genus part }
  else if (rankPre .species).isPrefixOf part then { lv with species := rankStrip .species part }
  else lv

/-- Python `extract_taxonomy_levels` (lines 45-69).  A missing value
(`pd.isna`) is `none`; the sentinel `"Root"` and missing input yield
all `"Unknown"`; otherwise the string is split on `;`, each part is
stripped, and the if/elif chain is folded over the parts. -/
def extract_taxonomy_levels : Option (List Char) → TaxLevels
  | none => allUnknown
  | some s =>
    if s = "Root".data then allUnknown
    else ((pySplit ';' s).map pyStrip).foldl applySegment allUnknown

/-- Last part of the list carrying the given marker, if any
(specification-side helper used to characterise the fold). -/
def lastWithPre (pre : List Char) : List (List Char) → Option (List Char)
  | [] => none
  | p :: ps =>
    match lastWithPre pre ps with
    | some q => some q
    | none => if pre.isPrefixOf p then some p else none

/-- Specification-side value of one rank of a lineage string: the last
segment carrying the rank's marker, with the marker deleted, defaulting
to `"Unknown"`. -/
def specRankValue (r : Rank) (s : List Char) : List Char :=
  match lastWithPre (rankPre r) ((pySplit ';' s).map pyStrip) with
  | some p => rankStrip r p
  | none => "Unknown".data

/-!
## The homology hit table and its aggregations
-/

/-- One row of the DIAMOND hit table (`parse_diamond_results`, lines
13-22): query id, subject id, percent identity, alignment length,
e-value, bit score, free-text description. -/
structure HitRow where
  query_id : List Char
  subject_id : List Char
  pident : ℚ
  length : ℚ
  evalue : ℚ
  bitscore : ℚ
  description : List Char
deriving DecidableEq

/-- Python `df[df['gene_category'] != 'Other']` (lines 126 and 311): the hits
classified into a methane-related category. -/
def methaneRows (rows : List HitRow) : List HitRow :=
  rows.filter (fun r => classify_methane_gene r.description ≠ catOther)

/-- The rows of one gene-name group of `methane_genes.groupby('gene_name')`
(line 314): gene name is the first component of `extract_gene_info`. -/
def rowsOfGene (rows : List HitRow) (g : List Char) : List HitRow :=
  (methaneRows rows).filter (fun r => (extract_gene_info r.description).1 = g)

/-- Python `groupby('gene_name')['query_id'].nunique()` for one group (line
315): number of distinct query ids. -/
def geneReadCount (rows : List HitRow) (g : List Char) : ℕ :=
  (((rowsOfGene rows g).map HitRow.query_id).dedup).length

/-- Mean of a list of rationals (`'length': 'mean'`, line 316); the
empty list gives `0/0 = 0`. -/
def listMean (xs : List ℚ) : ℚ := xs.sum / xs.length

/-- Python `groupby('gene_name').agg({'length': 'mean'})` for one group. -/
def geneMeanLength (rows : List HitRow) (g : List Char) : ℚ :=
  listMean ((rowsOfGene rows g).map HitRow.length)

/-- Float division, with a zero denominator modelled as `none` (numpy
produces a non-finite `inf`/`nan` there instead of a number). -/
def floatDiv (a b : ℚ) : Option ℚ := if b = 0 then none else some (a / b)

/-- The RPKM of one gene-name group (line 321):
`(read_count * 1000) / (mean_length * total_reads_millions)`, with no
guard on the denominator. -/
def geneRpkm (rows : List HitRow) (g : List Char) (total_reads_millions : ℚ) : Option ℚ :=
  floatDiv (geneReadCount rows g * 1000) (geneMeanLength rows g * total_reads_millions)

/-- Python `df.groupby('species')['query_id'].nunique()` for one species in
the annotation fallback of `analyze_species_abundance` (lines 219-222):
species is the second component of `extract_gene_info`. -/
def speciesFallbackCount (rows : List HitRow) (sp : List Char) : ℕ :=
  (((rows.filter (fun r => (extract_gene_info r.description).2 = sp)).map HitRow.query_id).dedup).length

/-- The categories present among the methane-related hits (index of
`methane_genes.groupby('gene_category')`, line 134), in first-seen order. -/
def categoriesOf (rows : List HitRow) : List (List Char) :=
  ((methaneRows rows).map (fun r => classify_methane_gene r.description)).dedup

/-- Python `groupby('gene_category')['query_id'].nunique()` (line 134): the
distinct-query count per category, before sorting. -/
def geneCategoryCounts (rows : List HitRow) : List (List Char × ℕ) :=
  (categoriesOf rows).map (fun c =>
    (c, (((methaneRows rows).filter (fun r => classify_methane_gene r.description = c)).map
          HitRow.query_id).dedup.length))

/-- What `sort_values(ascending=False)` with the count as the only sort
key guarantees about its output (lines 135, 144, 222): a permutation of
the grouped counts whose counts are non-increasing.  The default
`kind='quicksort'` is not stable, so nothing more is guaranteed about
the order of equal-count groups. -/
def descByCount : List (List Char × ℕ) → Bool
  | a :: b :: rest => decide (b.2 ≤ a.2) && descByCount (b :: rest)
  | _ => true

def sortValuesDescSpec (input output : List (List Char × ℕ)) : Prop :=
  input.Perm output ∧ descByCount output = true

instance (input output : List (List Char × ℕ)) : Decidable (sortValuesDescSpec input output) :=
  inferInstanceAs (Decidable (input.Perm output ∧ descByCount output = true))

/-- Lexicographic `≤` on names. -/
def lexLeChars : List Char → List Char → Bool
  | [], _ => true
  | _ :: _, [] => false
  | a :: as, b :: bs => if a = b then lexLeChars as bs else decide (a < b)

/-- The order the claim asserts: descending by count with equal-count
ties broken ascending-lexicographically by name. -/
def lexTieStabilized : List (List Char × ℕ) → Bool
  | a :: b :: rest =>
    (decide (b.2 < a.2) || (decide (b.2 = a.2) && lexLeChars a.1 b.1)) && lexTieStabilized (b :: rest)
  | _ => true

/-!
## `parse_singlem_otu_table` (lines 34-81) and its caller (lines 384-388)
-/

/-- One parsed SingleM OTU record: the raw lineage, `num_hits`,
`coverage`, and the derived rank fields. -/
structure SinglemRow where
  taxonomy : List Char
  num_hits : ℕ
  coverage : ℚ
  levels : TaxLevels
deriving DecidableEq

/-- What reading the SingleM file can come to: a table of
`(taxonomy, num_hits, coverage)` rows, a `FileNotFoundError`, or any
other parse exception. -/
inductive SinglemSource where
  | table (rows : List (List Char × ℕ × ℚ))
  | fileNotFound
  | parseFailure
deriving DecidableEq

/-- Python `parse_singlem_otu_table` (lines 34-81): on success the taxonomy
string of every row is parsed into rank fields; both exception arms
print a warning and return `None` (here `none`) instead of propagating. -/
def parse_singlem_otu_table : SinglemSource → Option (List SinglemRow)
  | .table rows => some (rows.map (fun r => ⟨r.1, r.2.1, r.2.2, extract_taxonomy_levels (some r.1)⟩))
  | .fileNotFound => none
  | .parseFailure => none

/-- What `main` does right after `parse_singlem_otu_table` (lines
384-388): abort or continue with the loaded table. -/
inductive MainAfterSinglem where
  | exitError (code : ℕ)
  | proceed (df : List SinglemRow)
deriving DecidableEq

/-- Lines 385-388 of `main`: `if singlem_df is None: print("ERROR:
Failed to load SingleM OTU table"); sys.exit(1)`, else continue. -/
def mainHandleSinglem : Option (List SinglemRow) → MainAfterSinglem
  | none => .exitError 1
  | some df => .proceed df

/-- Whether the run goes on to the species-abundance analysis at all. -/
def reachesSpeciesAnalysis : MainAfterSinglem → Bool
  | .exitError _ => false
  | .proceed _ => true

/-- Which branch `analyze_species_abundance` takes (lines 177 and 215):
the SingleM branch when a table is passed, the annotation-derived
fallback when `None` is passed. -/
inductive SpeciesSource | singlem | annotationFallback
deriving DecidableEq

def analyze_species_abundance_branch : Option (List SinglemRow) → SpeciesSource
  | some _ => .singlem
  | none => .annotationFallback

/-!
## `plot_procrustes_analysis` (visualize_results.py lines 136-177)

Species-abundance inputs are association lists from species name to
count.  The function intersects the two species sets; with fewer than 3
common species it prints a warning and returns without computing any
statistic (modelled as `none`); otherwise it normalises the two count
vectors over the common species and hands them to
`scipy.spatial.procrustes` and `np.corrcoef`.  Those library calls are
kept at the boundary: the record returned below carries the exact
vectors passed to them, the Pearson pieces are computed from the
vectors, and a `procrustes` disparity is a sum of squared residuals of
two (standardised, optimally transformed) point sets.
-/

/-- The distinct species names of an abundance table. -/
def keysOf (m : List (List Char × ℚ)) : List (List Char) :=
  (m.map Prod.fst).dedup

/-- Python `diamond_species.get(sp, 0)`. -/
def lookup0 (m : List (List Char × ℚ)) (sp : List Char) : ℚ :=
  ((m.find? (fun p => p.1 = sp)).map Prod.snd).getD 0

/-- Python `common_species = list(set(diamond) & set(singlem))` (line 147), in
one fixed enumeration order (Python's set order is unspecified; the
claims at issue do not depend on it). -/
def common_species (dm sm : List (List Char × ℚ)) : List (List Char) :=
  (keysOf dm).filter (fun k => decide (k ∈ keysOf sm))

/-- Python `x / x.sum()` (lines 159-160). -/
def normalizeAbund (xs : List ℚ) : List ℚ := xs.map (fun a => a / xs.sum)

/-- What the `len(common_species) >= 3` branch computes before the
library calls: the number of common species and the two normalised
relative-abundance vectors over them. -/
structure ProcrustesData where
  commonCount : ℕ
  diamondAbund : List ℚ
  singlemAbund : List ℚ
deriving DecidableEq

/-- Python `plot_procrustes_analysis` (lines 136-177) up to the library-call
boundary: `none` is the skipped analysis (fewer than 3 common species,
lines 149-152); otherwise the data handed to `procrustes`/`corrcoef`. -/
def plot_procrustes_analysis (dm sm : List (List Char × ℚ)) : Option ProcrustesData :=
  if (common_species dm sm).length < 3 then none
  else some ⟨(common_species dm sm).length,
             normalizeAbund ((common_species dm sm).map (lookup0 dm)),
             normalizeAbund ((common_species dm sm).map (lookup0 sm))⟩

/-- Dot product of two rational vectors (extra entries of the longer
one are ignored, as in numpy on equal-length inputs). -/
def dotL (xs ys : List ℚ) : ℚ := (List.zipWith (fun a b => a * b) xs ys).sum

/-- Centred vector `x - mean x`. -/
def centeredList (xs : List ℚ) : List ℚ := xs.map (fun a => a - listMean xs)

/-- Numerator of the Pearson correlation `np.corrcoef(x, y)[0, 1]`:
the (unnormalised) covariance of the centred vectors. -/
def pearsonNum (xs ys : List ℚ) : ℚ := dotL (centeredList xs) (centeredList ys)

/-- Square of the denominator of the Pearson correlation: the product
of the two (unnormalised) variances.  The correlation itself is
`pearsonNum / sqrt pearsonDenSq`. -/
def pearsonDenSq (xs ys : List ℚ) : ℚ :=
  dotL (centeredList xs) (centeredList xs) * dotL (centeredList ys) (centeredList ys)

/-- Whether `np.corrcoef(x, y)[0, 1]` is a number at all: with a
zero-variance argument the division is `0/0` and the result is `nan`. -/
def pearsonDefined (xs ys : List ℚ) : Bool := decide (pearsonDenSq xs ys ≠ 0)

/-- The residual sum of squares of two 2-D point configurations:
`scipy.spatial.procrustes` returns exactly such a sum (of the
standardised first matrix against the optimally transformed second) as
its disparity. -/
def procrustesResidualSq (m1 m2 : List (ℚ × ℚ)) : ℚ :=
  (List.zipWith (fun p q => (p.1 - q.1) ^ 2 + (p.2 - q.2) ^ 2) m1 m2).sum

/-!
## Concrete inputs used by the claim theorems
-/

/-- One methane-classified hit whose alignment length is 0, so its
gene group has mean length 0. -/
def rowsC1 : List HitRow :=
  [⟨"q1".data, "s1".data, 98, 0, 0, 0, "pmoa [X]".data⟩]

/-- Two methane hits in two categories with one distinct read each:
an equal-count tie for the category sort. -/
def rowsC7 : List HitRow :=
  [⟨"q1".data, "s1".data, 98, 300, 0, 400, "pmoa [A]".data⟩,
   ⟨"q2".data, "s2".data, 95, 280, 0, 350, "mcra [B]".data⟩]

/-- The two-row hit table of the spec's example scenario. -/
def rowsC8 : List HitRow :=
  [⟨"q1".data, "s1".data, 98, 300, 1 / 10 ^ 50, 400,
    "particulate methane monooxygenase subunit A [Methylosinus trichosporium]".data⟩,
   ⟨"q2".data, "s2".data, 95, 280, 1 / 10 ^ 40, 350,
    "hypothetical protein [Escherichia coli]".data⟩]

/-- Three common species with identical counts on both sides: both
normalised vectors are constant. -/
def dmEqC5 : List (List Char × ℚ) := [("a".data, 1), ("b".data, 1), ("c".data, 1)]

def smEqC5 : List (List Char × ℚ) := [("a".data, 2), ("b".data, 2), ("c".data, 2)]

/-- Three common species with distinct counts. -/
def dmWC5 : List (List Char × ℚ) := [("a".data, 3), ("b".data, 2), ("c".data, 1)]

def smWC5 : List (List Char × ℚ) := [("a".data, 5), ("b".data, 4), ("c".data, 2)]

/-- Tables with no common species at all. -/
def dmSmallC5 : List (List Char × ℚ) := [("a".data, 1)]

def smSmallC5 : List (List Char × ℚ) := [("b".data, 1)]

example : extract_gene_info "pmoA [Methylosinus]".data = ("pmoA".data, "Methylosinus".data) := by decide
example : extract_gene_info "a [b] c".data = ("a".data, "b".data) := by decide
example : extract_gene_info "[abc] def [ghi]".data = ("[abc] def".data, "ghi".data) := by decide
example : extract_gene_info "[Some species]".data = ("[Some species]".data, "Unknown".data) := by decide
example : extract_gene_info "no brackets here".data = ("no brackets here".data, "Unknown".data) := by decide
example : classify_methane_gene "Particulate methane monooxygenase subunit A".data = catPMMO := by decide
example : classify_methane_gene "MmoR protein with formate thing".data = catMmoR := by decide
example : classify_methane_gene "hypothetical protein".data = catOther := by decide
example :
    extract_taxonomy_levels (some "d__Bacteria;p__Proteobacteria;g__Methylosinus;s__trichosporium".data) =
      ⟨"Bacteria".data, "Proteobacteria".data, "Unknown".data, "Unknown".data,
       "Unknown".data, "Methylosinus".data, "trichosporium".data⟩ := by decide
example : extract_taxonomy_levels (some "Root".data) = allUnknown := by decide
example : extract_taxonomy_levels (some "d__A;d__B".data) = { allUnknown with domain := "B".data } := by decide

/-!
## Claim C1 (RPKM division guard)
-/

/-- Claim C1, counterexample: the claim says that for every gene group
with mean alignment length 0 a guarded code path is taken and no
division by zero occurs.  The group of gene `pmoa` in `rowsC1` has mean
length 0, and line 321 divides by `mean_length * total_reads_millions`
unconditionally: the denominator is `0` and the division is a division
by zero (`none`). -/
theorem c1_counterexample :
    geneMeanLength rowsC1 "pmoa".data = 0 ∧
    geneRpkm rowsC1 "pmoa".data 1 = none := by
  have h1 : (rowsOfGene rowsC1 "pmoa".data).map HitRow.length = [0] := by decide
  have h : geneMeanLength rowsC1 "pmoa".data = 0 := by
    simp [geneMeanLength, h1, listMean]
  exact ⟨h, by simp [geneRpkm, floatDiv, h]⟩

/-- Claim C1, amended: `calculate_rpkm` contains no guard.  For every
hit table, gene and total-read count whose RPKM denominator
`mean_length * total_reads_millions` is zero — in particular for every
group with mean length 0 and nonzero total — the division by zero does
occur (numpy yields a non-finite value rather than a number). -/
theorem c1_amended (rows : List HitRow) (g : List Char) (total : ℚ)
    (h : geneMeanLength rows g * total = 0) :
    geneRpkm rows g total = none := by
  simp [geneRpkm, floatDiv, h]

/-- Witness for `c1_amended` at the concrete group of `rowsC1`. -/
theorem c1_amended_witness :
    geneMeanLength rowsC1 "pmoa".data * 1 = 0 ∧
    geneRpkm rowsC1 "pmoa".data 1 = none := by
  have h1 : (rowsOfGene rowsC1 "pmoa".data).map HitRow.length = [0] := by decide
  have h : geneMeanLength rowsC1 "pmoa".data * 1 = 0 := by
    simp [geneMeanLength, h1, listMean]
  exact ⟨h, c1_amended rowsC1 "pmoa".data 1 h⟩

/-!
## Claim C6 (SingleM failure handling)
-/

/-- Claim C6, counterexample: the claim says that after a failed
SingleM parse the run degrades to the annotation fallback rather than
aborting.  The parser does signal the failure as `None`, but `main`
(lines 385-387) then prints an error and calls `sys.exit(1)`: the run
aborts and the species-abundance analysis is never reached. -/
theorem c6_counterexample :
    parse_singlem_otu_table .fileNotFound = none ∧
    mainHandleSinglem (parse_singlem_otu_table .fileNotFound) = .exitError 1 ∧
    reachesSpeciesAnalysis (mainHandleSinglem (parse_singlem_otu_table .fileNotFound)) = false := by
  decide

/-- Claim C6, amended: a missing or malformed SingleM table makes
`parse_singlem_otu_table` return `None` instead of propagating the
exception, but the caller `main` then aborts with exit code 1; the
annotation-derived fallback branch of `analyze_species_abundance`
exists only for a `None` argument, which `main` never passes.  On a
successful parse the run proceeds with the loaded table. -/
theorem c6_amended :
    parse_singlem_otu_table .fileNotFound = none ∧
    parse_singlem_otu_table .parseFailure = none ∧
    mainHandleSinglem none = .exitError 1 ∧
    analyze_species_abundance_branch none = .annotationFallback ∧
    ∀ rows, ∃ df, parse_singlem_otu_table (.table rows) = some df ∧
      mainHandleSinglem (some df) = .proceed df :=
  ⟨rfl, rfl, rfl, rfl, fun _ => ⟨_, rfl, rfl⟩⟩

/-!
## Claim C7 (sort stabilization)
-/

/-- Claim C7, counterexample: the claim says the descending-count sorts
are stabilized by a secondary lexicographic name key.  The code passes
only the count key (default unstable quicksort), whose contract is
`sortValuesDescSpec`; on the equal-count category table of `rowsC7` the
order `[pMMO, MCR]` satisfies that contract yet is not lexicographically
stabilized (`MCR … < pMMO …`), so the sort the code performs does not
enforce the claimed tie order. -/
theorem c7_counterexample :
    sortValuesDescSpec (geneCategoryCounts rowsC7) [(catPMMO, 1), (catMCR, 1)] ∧
    lexTieStabilized [(catPMMO, 1), (catMCR, 1)] = false := by decide

/-- Claim C7, amended: the grouped-count sorts pass only the count as
sort key and no secondary name key, so the sort contract fixes the
descending count order but not the relative order of equal-count
groups: on `rowsC7` both orders of the two count-1 categories satisfy
the contract, and only one of them is the lexicographically stabilized
order the claim asserts. -/
theorem c7_amended :
    sortValuesDescSpec (geneCategoryCounts rowsC7) [(catMCR, 1), (catPMMO, 1)] ∧
    sortValuesDescSpec (geneCategoryCounts rowsC7) [(catPMMO, 1), (catMCR, 1)] ∧
    ([(catMCR, 1), (catPMMO, 1)] : List (List Char × ℕ)) ≠ [(catPMMO, 1), (catMCR, 1)] ∧
    lexTieStabilized [(catMCR, 1), (catPMMO, 1)] = true := by decide

/-!
## Claim C8 (example scenario)
-/

/-- Claim C8: on the spec's two-row hit table, classification gives
`pMMO (Particulate methane monooxygenase)` for q1 and `Other` for q2,
and the annotation-fallback species abundance counts exactly one
distinct read for `Methylosinus trichosporium` and one for
`Escherichia coli`. -/
theorem c8_example :
    classify_methane_gene "particulate methane monooxygenase subunit A [Methylosinus trichosporium]".data = catPMMO ∧
    classify_methane_gene "hypothetical protein [Escherichia coli]".data = catOther ∧
    speciesFallbackCount rowsC8 "Methylosinus trichosporium".data = 1 ∧
    speciesFallbackCount rowsC8 "Escherichia coli".data = 1 := by decide

/-!
## Claim C3 (classifier precedence)
-/

/-- First-match-wins for an arbitrary rule table: if rule `i` matches
and no earlier rule does, the fold returns rule `i`'s category. -/
theorem classifyRules_first (dl : List Char) :
    ∀ (rs : List (List (List Char) × List Char)) (i : ℕ) (h : i < rs.length),
      anyKey dl (rs.get ⟨i, h⟩).1 = true →
      (∀ j (hj : j < i), anyKey dl (rs.get ⟨j, Nat.lt_trans hj h⟩).1 = false) →
      classifyRules rs dl = (rs.get ⟨i, h⟩).2 := by
  intro rs
  induction rs with
  | nil => intro i h; exact absurd h (Nat.not_lt_zero i)
  | cons r rest ih =>
    intro i h hm hn
    obtain ⟨keys, cat⟩ := r
    cases i with
    | zero =>
      simp only [List.get] at hm ⊢
      simp [classifyRules, hm]
    | succ i =>
      have h0 : anyKey dl keys = false := hn 0 (Nat.succ_pos i)
      simp only [List.get] at hm ⊢
      simp only [classifyRules, h0, Bool.false_eq_true, if_false]
      exact ih i (Nat.lt_of_succ_lt_succ h) hm
        (fun j hj => hn (j + 1) (Nat.succ_lt_succ hj))

/-- The chain of ifs in `classify_methane_gene` is the first-match fold
over its rule table. -/
theorem classify_eq_rules (d : List Char) :
    classify_methane_gene d = classifyRules rules (pyLower d) := by
  simp only [classify_methane_gene, rules, classifyRules, anyKey,
    List.any_cons, List.any_nil, Bool.or_false]

/-- Claim C3: category classification is a pure function of the
description, computed on the lower-cased text as the ordered
first-match-wins rule list `rules` (particulate methane monooxygenase
terms, then sMMO terms, then MmoR, then MmoG, then methyl-coenzyme M
reductase terms, then methanol dehydrogenase, then formaldehyde, then
formate, then ammonia/ammonium, else `Other`); whenever rule `i`
matches a description and no earlier rule does — in particular when the
description also contains keywords of any later rule group — the result
is rule `i`'s category. -/
theorem c3_first_match :
    (∀ d, classify_methane_gene d = classifyRules rules (pyLower d)) ∧
    (∀ (d : List Char) (i : ℕ) (h : i < rules.length),
      anyKey (pyLower d) (rules.get ⟨i, h⟩).1 = true →
      (∀ j (hj : j < i), anyKey (pyLower d) (rules.get ⟨j, Nat.lt_trans hj h⟩).1 = false) →
      classify_methane_gene d = (rules.get ⟨i, h⟩).2) :=
  ⟨classify_eq_rules,
   fun d i h hm hn => (classify_eq_rules d).trans (classifyRules_first (pyLower d) rules i h hm hn)⟩

/-- Witness for `c3_first_match` on a description containing keywords
of two rule groups, MmoR (rule 2) and formate (rule 7): the earlier
group wins. -/
theorem c3_first_match_witness :
    anyKey (pyLower "MmoR regulatory protein with formate".data) (rules.get ⟨2, by decide⟩).1 = true ∧
    anyKey (pyLower "MmoR regulatory protein with formate".data) (rules.get ⟨7, by decide⟩).1 = true ∧
    classify_methane_gene "MmoR regulatory protein with formate".data = (rules.get ⟨2, by decide⟩).2 :=
  ⟨by decide, by decide,
   c3_first_match.2 "MmoR regulatory protein with formate".data 2 (by decide) (by decide)
     (by intro j hj; interval_cases j <;> rfl)⟩

/-!
## Claims C2 and C10 (`extract_gene_info`)
-/

/-- Group 2 capture over an explicit decomposition: scanning
`Y ++ ']' :: t` with no `]` or newline in `Y` stops at that `]` and
captures `acc.reverse ++ Y`. -/
theorem group2Scan_append (t : List Char) :
    ∀ (Y acc : List Char), ']' ∉ Y → '\n' ∉ Y →
      group2Scan acc (Y ++ ']' :: t) = some (acc.reverse ++ Y) := by
  intro Y
  induction Y with
  | nil => intro acc _ _; simp [group2Scan]
  | cons y Y ih =>
    intro acc hb hn
    have hy1 : ¬ y = ']' := fun h => hb (by simp [h])
    have hy2 : ¬ y = '\n' := fun h => hn (by simp [h])
    have hb' : ']' ∉ Y := fun h => hb (List.mem_cons_of_mem y h)
    have hn' : '\n' ∉ Y := fun h => hn (List.mem_cons_of_mem y h)
    show group2Scan acc (y :: (Y ++ ']' :: t)) = some (acc.reverse ++ y :: Y)
    rw [group2Scan, if_neg hy1, if_neg hy2, ih (y :: acc) hb' hn']
    simp

/-- Group 2 of the pattern on `Y ++ ']' :: t` is exactly `Y`. -/
theorem group2_append (Y t : List Char) (hY : Y ≠ []) (hb : ']' ∉ Y) (hn : '\n' ∉ Y) :
    group2 (Y ++ ']' :: t) = some Y := by
  cases Y with
  | nil => exact absurd rfl hY
  | cons y Y =>
    have hy2 : ¬ y = '\n' := fun h => hn (by simp [h])
    have hb' : ']' ∉ Y := fun h => hb (List.mem_cons_of_mem y h)
    have hn' : '\n' ∉ Y := fun h => hn (List.mem_cons_of_mem y h)
    simp [group2, hy2, group2Scan_append t Y [y] hb' hn']

/-- Python `skipWs` dies on a block that contains a non-whitespace character
before any `[`. -/
theorem skipWs_append_none (t : List Char) :
    ∀ S : List Char, '[' ∉ S → (∃ d ∈ S, wsChar d = false) →
      skipWs (S ++ t) = none := by
  intro S
  induction S with
  | nil => rintro _ ⟨d, hd, _⟩; exact absurd hd (List.not_mem_nil d)
  | cons c S ih =>
    rintro hb ⟨d, hd, hdw⟩
    have hc : ¬ c = '[' := fun h => hb (by simp [h])
    have hb' : '[' ∉ S := fun h => hb (List.mem_cons_of_mem c h)
    by_cases hw : wsChar c
    · have hdS : d ∈ S := by
        rcases List.mem_cons.1 hd with h | h
        · subst h; rw [hw] at hdw; cases hdw
        · exact h
      simp only [List.cons_append, skipWs, hc, if_false, hw, if_true]
      exact ih hb' ⟨d, hdS, hdw⟩
    · simp [skipWs, hc, hw]

/-- Python `skipWs` never succeeds without an opening bracket in its input. -/
theorem skipWs_none_of_no_bracket : ∀ t : List Char, '[' ∉ t → skipWs t = none := by
  intro t
  induction t with
  | nil => intro _; rfl
  | cons c t ih =>
    intro hb
    have hc : ¬ c = '[' := fun h => hb (by simp [h])
    have hb' : '[' ∉ t := fun h => hb (List.mem_cons_of_mem c h)
    by_cases hw : wsChar c
    · simp [skipWs, hc, hw, ih hb']
    · simp [skipWs, hc, hw]

/-- A successful `skipWs` run preceded by a whitespace character
exhibits a whitespace-`[` adjacency. -/
theorem skipWs_some_wsBracket :
    ∀ (t : List Char) (u : List Char) (c : Char), wsChar c = true → skipWs t = some u →
      hasWsBracket (c :: t) = true := by
  intro t
  induction t with
  | nil => intro u c _ h; cases h
  | cons d t ih =>
    intro u c hc h
    by_cases hd : d = '['
    · subst hd; simp [hasWsBracket, hc]
    · by_cases hdw : wsChar d
      · have h' : skipWs t = some u := by
          simpa [skipWs, hd, hdw] using h
        simp [hasWsBracket, ih u d hdw h']
      · simp [skipWs, hd, hdw] at h

/-- Without a whitespace-`[` adjacency, `wsBracket` fails. -/
theorem wsBracket_none (l : List Char) (h : hasWsBracket l = false) : wsBracket l = none := by
  cases l with
  | nil => rfl
  | cons c t =>
    by_cases hw : wsChar c
    · cases hu : skipWs t with
      | none => simp [wsBracket, hw, hu]
      | some u => rw [skipWs_some_wsBracket t u c hw hu] at h; cases h
    · simp [wsBracket, hw]

/-- The tail of a string without a whitespace-`[` adjacency has none
either. -/
theorem hasWsBracket_tail (c : Char) (t : List Char) (h : hasWsBracket (c :: t) = false) :
    hasWsBracket t = false := by
  cases t with
  | nil => rfl
  | cons d t2 =>
    have := h
    simp only [hasWsBracket, Bool.or_eq_false_iff] at this
    exact this.2

/-- Without a whitespace-`[` adjacency anywhere, the group-1 scan never
closes and the whole match fails. -/
theorem geneInfoScan_none : ∀ (rest acc : List Char), hasWsBracket rest = false →
    geneInfoScan acc rest = none := by
  intro rest
  induction rest with
  | nil => intro acc _; rfl
  | cons c t ih =>
    intro acc h
    have hwb : wsBracket (c :: t) = none := wsBracket_none (c :: t) h
    have ht : hasWsBracket t = false := hasWsBracket_tail c t h
    by_cases hc : c = '\n'
    · subst hc; simp [geneInfoScan, hwb]
    · simp [geneInfoScan, hwb, hc, ih (c :: acc) ht]

theorem lastNonWs_tail (c : Char) (S : List Char) (h : lastNonWs (c :: S) = true) :
    lastNonWs S = true := by
  cases S with
  | nil => rfl
  | cons d t => exact h

theorem lastNonWs_ex : ∀ S : List Char, S ≠ [] → lastNonWs S = true →
    ∃ d ∈ S, wsChar d = false := by
  intro S
  induction S with
  | nil => intro h; exact absurd rfl h
  | cons c S ih =>
    intro _ h
    cases S with
    | nil =>
      refine ⟨c, by simp, ?_⟩
      simpa [lastNonWs] using h
    | cons d t =>
      obtain ⟨e, he, hew⟩ := ih (by simp) h
      exact ⟨e, List.mem_cons_of_mem c he, hew⟩

/-- The group-1 scan on `S ++ ' ' :: '[' :: Y ++ [']']`, where `S` has
no `[` and no newline and does not end in whitespace, closes group 1
exactly at the end of `S` and captures `Y`. -/
theorem geneInfoScan_append (Y : List Char) (hY : Y ≠ []) (hYb : ']' ∉ Y) (hYn : '\n' ∉ Y) :
    ∀ (S acc : List Char), '[' ∉ S → '\n' ∉ S → lastNonWs S = true →
      geneInfoScan acc (S ++ ' ' :: '[' :: (Y ++ [']'])) = some (acc.reverse ++ S, Y) := by
  intro S
  induction S with
  | nil =>
    intro acc _ _ _
    show geneInfoScan acc (' ' :: '[' :: (Y ++ [']'])) = some (acc.reverse ++ [], Y)
    have hg2 : group2 (Y ++ ']' :: []) = some Y := group2_append Y [] hY hYb hYn
    simp only [geneInfoScan, wsBracket, skipWs, wsChar]
    norm_num [hg2]
  | cons c S ih =>
    intro acc hb hn hlast
    have hc_b : ¬ c = '[' := fun h => hb (by simp [h])
    have hc_n : ¬ c = '\n' := fun h => hn (by simp [h])
    have hb' : '[' ∉ S := fun h => hb (List.mem_cons_of_mem c h)
    have hn' : '\n' ∉ S := fun h => hn (List.mem_cons_of_mem c h)
    have hlast' : lastNonWs S = true := lastNonWs_tail c S hlast
    have hrec := ih (c :: acc) hb' hn' hlast'
    show geneInfoScan acc (c :: (S ++ ' ' :: '[' :: (Y ++ [']']))) = some (acc.reverse ++ c :: S, Y)
    by_cases hw : wsChar c
    · have hS : S ≠ [] := by
        intro h0
        subst h0
        have : lastNonWs [c] = true := hlast
        simp [lastNonWs, hw] at this
      have hwb : wsBracket (c :: (S ++ ' ' :: '[' :: (Y ++ [']']))) = none := by
        have hex := lastNonWs_ex S hS hlast'
        simp only [wsBracket, hw, if_true]
        exact skipWs_append_none (' ' :: '[' :: (Y ++ [']'])) S hb' hex
      rw [geneInfoScan, hwb, if_neg hc_n, hrec]
      simp
    · have hwb : wsBracket (c :: (S ++ ' ' :: '[' :: (Y ++ [']']))) = none := by
        simp [wsBracket, hw]
      rw [geneInfoScan, hwb, if_neg hc_n, hrec]
      simp

/-- A string without `[` has no whitespace-`[` adjacency. -/
theorem no_bracket_hasWsBracket : ∀ s : List Char, '[' ∉ s → hasWsBracket s = false := by
  intro s
  induction s with
  | nil => intro _; rfl
  | cons a t ih =>
    intro hb
    cases t with
    | nil => rfl
    | cons b t2 =>
      have hb2 : ¬ b = '[' := fun h => hb (by simp [h])
      have hbt : '[' ∉ b :: t2 := fun h => hb (List.mem_cons_of_mem a h)
      simp [hasWsBracket, hb2, ih hbt]

/-- Claim C2, counterexample: the claim says every description without
a trailing bracketed group yields species `"Unknown"` and the full
description as gene name.  `"a [b] c"` does not end with a bracketed
group, yet the unanchored pattern matches its inner `"a [b]"` and the
code returns gene `"a"` and species `"b"`. -/
theorem c2_counterexample :
    extract_gene_info "a [b] c".data = ("a".data, "b".data) ∧
    ("a".data, "b".data) ≠ ("a [b] c".data, "Unknown".data) := by decide

/-- Claim C2, amended: (a) for descriptions `X ++ " [" ++ Y ++ "]"`
(with any further text after the bracket absorbed into `Y`'s closing):
if `X` is nonempty, contains no `[` and no newline and does not end in
whitespace, and `Y` is nonempty and contains no `]` and no newline,
the extractor returns gene `X.strip` and species `Y.strip`; (b) the
`("description", "Unknown")` fallback is returned exactly when the
unanchored pattern `nonempty-prefix, whitespace, [nonempty]` matches
nowhere — in particular for every description containing no `[` at all
— and not merely for descriptions without a trailing bracket. -/
theorem c2_amended :
    (∀ X Y : List Char, X ≠ [] → '[' ∉ X → '\n' ∉ X → lastNonWs X = true →
      Y ≠ [] → ']' ∉ Y → '\n' ∉ Y →
      extract_gene_info (X ++ ' ' :: '[' :: (Y ++ [']'])) = (pyStrip X, pyStrip Y)) ∧
    (∀ s : List Char, '[' ∉ s → extract_gene_info s = (s, "Unknown".data)) := by
  constructor
  · intro X Y hX hXb hXn hXw hY hYb hYn
    cases X with
    | nil => exact absurd rfl hX
    | cons x X =>
      have hx_n : ¬ x = '\n' := fun h => hXn (by simp [h])
      have hXb' : '[' ∉ X := fun h => hXb (List.mem_cons_of_mem x h)
      have hXn' : '\n' ∉ X := fun h => hXn (List.mem_cons_of_mem x h)
      have hscan := geneInfoScan_append Y hY hYb hYn X [x] hXb' hXn' (lastNonWs_tail x X hXw)
      have hmatch : pyGeneInfoMatch ((x :: X) ++ ' ' :: '[' :: (Y ++ [']'])) = some (x :: X, Y) := by
        show pyGeneInfoMatch (x :: (X ++ ' ' :: '[' :: (Y ++ [']']))) = some (x :: X, Y)
        rw [pyGeneInfoMatch, if_neg hx_n, hscan]
        simp
      unfold extract_gene_info
      rw [hmatch]
  · intro s hb
    cases s with
    | nil => rfl
    | cons c rest =>
      by_cases hc : c = '\n'
      · simp [extract_gene_info, pyGeneInfoMatch, hc]
      · have hws : hasWsBracket rest = false :=
          hasWsBracket_tail c rest (no_bracket_hasWsBracket (c :: rest) hb)
        simp [extract_gene_info, pyGeneInfoMatch, hc, geneInfoScan_none rest [c] hws]

/-- Witness for `c2_amended` at `X = "protein A"`, `Y = "Methylosinus"`
and at a bracket-free description. -/
theorem c2_amended_witness :
    extract_gene_info ("protein A".data ++ ' ' :: '[' :: ("Methylosinus".data ++ [']'])) =
      (pyStrip "protein A".data, pyStrip "Methylosinus".data) ∧
    extract_gene_info "no species info here".data = ("no species info here".data, "Unknown".data) :=
  ⟨c2_amended.1 "protein A".data "Methylosinus".data (by decide) (by decide) (by decide)
     (by decide) (by decide) (by decide) (by decide),
   c2_amended.2 "no species info here".data (by decide)⟩

/-- Claim C10, counterexample: the claim says every description whose
first bracketed group lacks a nonempty prefix and preceding whitespace
is returned whole with species `"Unknown"`.  In
`"[abc] def [ghi]"` the first bracketed group `[abc]` starts the
string, yet the pattern simply matches the later bracket (the prefix
`(.+?)` may itself contain brackets) and the code returns gene
`"[abc] def"` and species `"ghi"`, not the whole description. -/
theorem c10_counterexample :
    extract_gene_info "[abc] def [ghi]".data = ("[abc] def".data, "ghi".data) ∧
    ("[abc] def".data, "ghi".data) ≠ ("[abc] def [ghi]".data, "Unknown".data) := by decide

/-- Claim C10, amended: the pattern searches for any bracketed group
preceded by whitespace and a nonempty prefix, not only the first one.
The `(description, "Unknown")` fallback is returned whenever no
whitespace character is immediately followed by `[` anywhere in the
description — which covers the claim's examples `"[Some species]"` and
descriptions beginning with `[` and containing no later
whitespace-preceded bracket. -/
theorem c10_amended (s : List Char) (h : hasWsBracket s = false) :
    extract_gene_info s = (s, "Unknown".data) := by
  cases s with
  | nil => rfl
  | cons c rest =>
    by_cases hc : c = '\n'
    · simp [extract_gene_info, pyGeneInfoMatch, hc]
    · simp [extract_gene_info, pyGeneInfoMatch, hc,
        geneInfoScan_none rest [c] (hasWsBracket_tail c rest h)]

/-- Witness for `c10_amended` at the claim's own example
`"[Some species]"`. -/
theorem c10_amended_witness :
    extract_gene_info "[Some species]".data = ("[Some species]".data, "Unknown".data) :=
  c10_amended "[Some species]".data (by decide)

/-!
## Claims C4 and C9 (taxonomy parser)
-/

theorem isPrefixOf_head_eq {a : Char} {xs l : List Char}
    (h : (a :: xs).isPrefixOf l = true) : l.head? = some a := by
  cases l with
  | nil => simp [List.isPrefixOf] at h
  | cons c t =>
    have hac : a = c := by
      simp only [List.isPrefixOf, Bool.and_eq_true, beq_iff_eq] at h
      exact h.1
    simp [hac]

/-- Two rank markers with different first characters cannot both be
prefixes of the same segment. -/
theorem pre_excl {a b : Char} (hne : a ≠ b) {xs ys l : List Char}
    (ha : (a :: xs).isPrefixOf l = true) (hb : (b :: ys).isPrefixOf l = true) : False := by
  have h1 := isPrefixOf_head_eq ha
  have h2 := isPrefixOf_head_eq hb
  rw [h1] at h2
  exact hne (Option.some.inj h2)

theorem TaxLevels.get_set (lv : TaxLevels) (r r' : Rank) (v : List Char) :
    (lv.set r v).get r' = if r = r' then v else lv.get r' := by
  cases r <;> cases r' <;> simp [TaxLevels.set, TaxLevels.get]

/-- A segment can start with at most one rank marker (their first
characters differ). -/
theorem prefix_rank_unique {p : List Char} :
    ∀ {r r' : Rank}, (rankPre r).isPrefixOf p = true → (rankPre r').isPrefixOf p = true →
      r = r' := by
  intro r r'
  cases r <;> cases r' <;> intro h1 h2 <;>
    first
      | rfl
      | exact absurd ((isPrefixOf_head_eq h1).symm.trans (isPrefixOf_head_eq h2)) (by decide)

/-- The if/elif chain either leaves the record unchanged (no marker
matches) or overwrites exactly the matching rank. -/
theorem applySegment_cases (lv : TaxLevels) (p : List Char) :
    ((∀ r : Rank, ¬ (rankPre r).isPrefixOf p = true) ∧ applySegment lv p = lv) ∨
      (∃ r : Rank, (rankPre r).isPrefixOf p = true ∧
        applySegment lv p = lv.set r (rankStrip r p)) := by
  unfold applySegment
  split_ifs with h1 h2 h3 h4 h5 h6 h7
  · exact Or.inr ⟨.domain, h1, rfl⟩
  · exact Or.inr ⟨.phylum, h2, rfl⟩
  · exact Or.inr ⟨.cls, h3, rfl⟩
  · exact Or.inr ⟨.ordo, h4, rfl⟩
  · exact Or.inr ⟨.family, h5, rfl⟩
  · exact Or.inr ⟨.genus, h6, rfl⟩
  · exact Or.inr ⟨.species, h7, rfl⟩
  · refine Or.inl ⟨?_, rfl⟩
    intro r
    cases r <;> assumption

/-- One pass of the if/elif chain, described per rank: rank `r` is
overwritten exactly when the segment starts with `r`'s marker. -/
theorem applySegment_get (lv : TaxLevels) (p : List Char) (r : Rank) :
    (applySegment lv p).get r =
      if (rankPre r).isPrefixOf p = true then rankStrip r p else lv.get r := by
  by_cases h : (rankPre r).isPrefixOf p = true
  · rw [if_pos h]
    rcases applySegment_cases lv p with ⟨hall, heq⟩ | ⟨r2, hr2, heq⟩
    · exact absurd h (hall r)
    · have hrr : r2 = r := prefix_rank_unique hr2 h
      subst hrr
      rw [heq, TaxLevels.get_set, if_pos rfl]
  · rw [if_neg h]
    rcases applySegment_cases lv p with ⟨_, heq⟩ | ⟨r2, hr2, heq⟩
    · rw [heq]
    · rw [heq, TaxLevels.get_set, if_neg (fun hrr : r2 = r => h (hrr ▸ hr2))]

/-- Folding the if/elif chain over the segments, characterised per
rank: the final value of rank `r` comes from the last segment starting
with `r`'s marker, and is untouched otherwise. -/
theorem foldl_applySegment_get :
    ∀ (parts : List (List Char)) (lv : TaxLevels) (r : Rank),
      (parts.foldl applySegment lv).get r =
        match lastWithPre (rankPre r) parts with
        | some p => rankStrip r p
        | none => lv.get r := by
  intro parts
  induction parts with
  | nil => intro lv r; rfl
  | cons p ps ih =>
    intro lv r
    show ((ps.foldl applySegment (applySegment lv p))).get r = _
    rw [ih (applySegment lv p) r]
    cases hl : lastWithPre (rankPre r) ps with
    | some q => simp [lastWithPre, hl]
    | none =>
      simp only [lastWithPre, hl]
      rw [applySegment_get]
      by_cases hp : (rankPre r).isPrefixOf p = true
      · simp [hp]
      · simp [hp]

theorem lastWithPre_none_iff (pre : List Char) :
    ∀ parts : List (List Char),
      lastWithPre pre parts = none ↔ ∀ p ∈ parts, pre.isPrefixOf p = false := by
  intro parts
  induction parts with
  | nil => simp [lastWithPre]
  | cons p ps ih =>
    constructor
    · intro h
      cases hl : lastWithPre pre ps with
      | some q => simp [lastWithPre, hl] at h
      | none =>
        simp only [lastWithPre, hl] at h
        intro q hq
        rcases List.mem_cons.1 hq with rfl | hq2
        · by_cases hp : pre.isPrefixOf q = true
          · simp [hp] at h
          · exact Bool.eq_false_iff.mpr hp
        · exact (ih.1 hl) q hq2
    · intro h
      have hps : lastWithPre pre ps = none :=
        ih.2 (fun q hq => h q (List.mem_cons_of_mem p hq))
      simp [lastWithPre, hps, h p (by simp)]

theorem lastWithPre_mem (pre : List Char) :
    ∀ parts q, lastWithPre pre parts = some q → q ∈ parts ∧ pre.isPrefixOf q = true := by
  intro parts
  induction parts with
  | nil => intro q h; cases h
  | cons p ps ih =>
    intro q h
    cases hl : lastWithPre pre ps with
    | some q2 =>
      rw [lastWithPre, hl] at h
      obtain ⟨hm, hpre⟩ := ih q2 hl
      obtain rfl : q2 = q := Option.some.inj h
      exact ⟨List.mem_cons_of_mem p hm, hpre⟩
    | none =>
      rw [lastWithPre, hl] at h
      by_cases hp : pre.isPrefixOf p = true
      · rw [if_pos hp] at h
        obtain rfl : p = q := Option.some.inj h
        exact ⟨by simp, hp⟩
      · rw [if_neg hp] at h
        cases h

theorem isPrefixOf_append_self : ∀ (pre v : List Char), pre.isPrefixOf (pre ++ v) = true := by
  intro pre v
  induction pre with
  | nil => cases v <;> rfl
  | cons a pre ih => simp [List.isPrefixOf, ih]

/-- If `pre ++ v` is in the list and is the only element starting with
`pre`, the last match is `pre ++ v`. -/
theorem lastWithPre_unique (pre v : List Char) :
    ∀ parts : List (List Char), (pre ++ v) ∈ parts →
      (∀ p ∈ parts, pre.isPrefixOf p = true → p = pre ++ v) →
      lastWithPre pre parts = some (pre ++ v) := by
  intro parts
  induction parts with
  | nil => intro h; cases h
  | cons p ps ih =>
    intro hmem huniq
    cases hl : lastWithPre pre ps with
    | some q =>
      obtain ⟨hqm, hqpre⟩ := lastWithPre_mem pre ps q hl
      have : q = pre ++ v := huniq q (List.mem_cons_of_mem p hqm) hqpre
      simp [lastWithPre, hl, this]
    | none =>
      have hps : ∀ q ∈ ps, pre.isPrefixOf q = false := (lastWithPre_none_iff pre ps).1 hl
      have hpv : p = pre ++ v := by
        rcases List.mem_cons.1 hmem with h | h
        · exact h.symm
        · have := hps (pre ++ v) h
          rw [isPrefixOf_append_self] at this
          cases this
      subst hpv
      simp [lastWithPre, hl, isPrefixOf_append_self]

theorem stripAll3_of_not_sub (a b c : Char) :
    ∀ v : List Char, isSubstring [a, b, c] v = false → stripAll3 a b c v = v := by
  intro v
  induction v with
  | nil => intro _; rfl
  | cons x t ih =>
    intro h
    have ht : isSubstring [a, b, c] t = false := by
      rw [isSubstring, Bool.or_eq_false_iff] at h
      exact h.2
    cases t with
    | nil => rfl
    | cons y t2 =>
      cases t2 with
      | nil => rfl
      | cons z rest =>
        by_cases habc : x = a ∧ y = b ∧ z = c
        · exfalso
          rw [isSubstring, Bool.or_eq_false_iff] at h
          have h1 := h.1
          rw [habc.1, habc.2.1, habc.2.2] at h1
          have h2 := isPrefixOf_append_self [a, b, c] rest
          simp only [List.cons_append, List.nil_append] at h2
          rw [h2] at h1
          cases h1
        · rw [stripAll3, if_neg habc, ih ht]

/-- Deleting the marker from `marker ++ v` gives back `v` when `v`
does not itself contain the marker. -/
theorem stripAll3_append (a b c : Char) (v : List Char)
    (h : isSubstring [a, b, c] v = false) :
    stripAll3 a b c (a :: b :: c :: v) = v := by
  rw [stripAll3, if_pos ⟨rfl, rfl, rfl⟩, stripAll3_of_not_sub a b c v h]

/-- Claim C9: the taxonomy parser is a total function into a record
with exactly one value per rank, and each rank's value is determined by
the last segment carrying that rank's marker (later occurrences
overwrite earlier ones), defaulting to `"Unknown"`; missing input gives
all `"Unknown"`. -/
theorem c9_last_wins :
    (∀ (s : List Char) (r : Rank),
      (extract_taxonomy_levels (some s)).get r = specRankValue r s) ∧
    extract_taxonomy_levels none = allUnknown := by
  refine ⟨?_, rfl⟩
  intro s r
  by_cases hs : s = "Root".data
  · subst hs
    cases r <;> rfl
  · simp only [extract_taxonomy_levels, if_neg hs, specRankValue]
    rw [foldl_applySegment_get]
    cases lastWithPre (rankPre r) ((pySplit ';' s).map pyStrip) with
    | some p => rfl
    | none => cases r <;> rfl

/-- Claim C4: for missing input and for the sentinel `"Root"` every
rank is `"Unknown"`; for any other lineage string and any rank, the
rank is `"Unknown"` when no (stripped) semicolon-segment starts with
its marker — segments with no recognised marker populate nothing — and
when exactly one segment `marker ++ v` carries the marker (in any
position of the string), the rank's value is `v`. -/
theorem c4_taxonomy :
    extract_taxonomy_levels none = allUnknown ∧
    extract_taxonomy_levels (some "Root".data) = allUnknown ∧
    (∀ (s : List Char) (r : Rank), s ≠ "Root".data →
      ((∀ p ∈ (pySplit ';' s).map pyStrip, (rankPre r).isPrefixOf p = false) →
        (extract_taxonomy_levels (some s)).get r = "Unknown".data) ∧
      (∀ v : List Char, (rankPre r ++ v) ∈ (pySplit ';' s).map pyStrip →
        (∀ p ∈ (pySplit ';' s).map pyStrip, (rankPre r).isPrefixOf p = true → p = rankPre r ++ v) →
        isSubstring (rankPre r) v = false →
        (extract_taxonomy_levels (some s)).get r = v)) := by
  refine ⟨rfl, by decide, ?_⟩
  intro s r hs
  constructor
  · intro hnone
    simp only [extract_taxonomy_levels, if_neg hs]
    rw [foldl_applySegment_get, (lastWithPre_none_iff (rankPre r) _).2 hnone]
    cases r <;> rfl
  · intro v hmem huniq hsub
    simp only [extract_taxonomy_levels, if_neg hs]
    rw [foldl_applySegment_get, lastWithPre_unique (rankPre r) v _ hmem huniq]
    cases r <;> exact stripAll3_append _ _ _ v hsub

/-- Witness for `c4_taxonomy` on the spec's example lineage: genus
comes from its `g__` segment, and the class rank, whose marker is
absent, is `"Unknown"`. -/
theorem c4_taxonomy_witness :
    (extract_taxonomy_levels
      (some "d__Bacteria;p__Proteobacteria;g__Methylosinus;s__trichosporium".data)).get .genus =
      "Methylosinus".data ∧
    (extract_taxonomy_levels
      (some "d__Bacteria;p__Proteobacteria;g__Methylosinus;s__trichosporium".data)).get .cls =
      "Unknown".data :=
  ⟨(c4_taxonomy.2.2 "d__Bacteria;p__Proteobacteria;g__Methylosinus;s__trichosporium".data
      .genus (by decide)).2 "Methylosinus".data (by decide) (by decide) (by decide),
   (c4_taxonomy.2.2 "d__Bacteria;p__Proteobacteria;g__Methylosinus;s__trichosporium".data
      .cls (by decide)).1 (by decide)⟩

/-!
## Claim C5 (reconciler: skip condition, disparity, correlation)
-/

theorem dotL_eq_sum (xs : List ℚ) :
    ∀ ys : List ℚ, dotL xs ys =
      ∑ i in Finset.range (min xs.length ys.length), xs.getD i 0 * ys.getD i 0 := by
  induction xs with
  | nil => intro ys; simp [dotL]
  | cons x xs ih =>
    intro ys
    cases ys with
    | nil => simp [dotL]
    | cons y ys =>
      have hmin : min (x :: xs).length (y :: ys).length = min xs.length ys.length + 1 := by
        simp [Nat.succ_min_succ]
      rw [hmin, Finset.sum_range_succ']
      simp only [List.getD_cons_succ, List.getD_cons_zero]
      rw [← ih ys]
      simp [dotL, add_comm]

theorem dotL_self_nonneg (xs : List ℚ) : 0 ≤ dotL xs xs := by
  induction xs with
  | nil => simp [dotL]
  | cons x t ih =>
    simp only [dotL, List.zipWith_cons_cons, List.sum_cons]
    exact add_nonneg (mul_self_nonneg x) ih

/-- Cauchy-Schwarz for the list dot product (with the longer vector's
extra entries ignored, matching `zipWith`). -/
theorem dotL_sq_le (xs ys : List ℚ) : (dotL xs ys) ^ 2 ≤ dotL xs xs * dotL ys ys := by
  rw [dotL_eq_sum xs ys, dotL_eq_sum xs xs, dotL_eq_sum ys ys, Nat.min_self, Nat.min_self]
  have hcs := Finset.sum_mul_sq_le_sq_mul_sq (Finset.range (min xs.length ys.length))
      (fun i => xs.getD i 0) (fun i => ys.getD i 0)
  refine hcs.trans ?_
  have hx : ∑ i in Finset.range (min xs.length ys.length), xs.getD i 0 ^ 2 ≤
      ∑ i in Finset.range xs.length, xs.getD i 0 * xs.getD i 0 := by
    simp only [pow_two]
    exact Finset.sum_le_sum_of_subset_of_nonneg
      (Finset.range_subset.2 (Nat.min_le_left _ _))
      (fun i _ _ => mul_self_nonneg _)
  have hy : ∑ i in Finset.range (min xs.length ys.length), ys.getD i 0 ^ 2 ≤
      ∑ i in Finset.range ys.length, ys.getD i 0 * ys.getD i 0 := by
    simp only [pow_two]
    exact Finset.sum_le_sum_of_subset_of_nonneg
      (Finset.range_subset.2 (Nat.min_le_right _ _))
      (fun i _ _ => mul_self_nonneg _)
  refine mul_le_mul hx hy ?_ ?_
  · exact Finset.sum_nonneg (fun i _ => sq_nonneg _)
  · exact Finset.sum_nonneg (fun i _ => mul_self_nonneg _)

/-- The squared Pearson numerator never exceeds the squared
denominator: the correlation, where defined, lies in `[-1, 1]`. -/
theorem pearson_sq_le (xs ys : List ℚ) :
    (pearsonNum xs ys) ^ 2 ≤ pearsonDenSq xs ys :=
  dotL_sq_le (centeredList xs) (centeredList ys)

theorem procrustesResidualSq_nonneg : ∀ m1 m2 : List (ℚ × ℚ), 0 ≤ procrustesResidualSq m1 m2 := by
  intro m1
  induction m1 with
  | nil => intro m2; simp [procrustesResidualSq]
  | cons p m1 ih =>
    intro m2
    cases m2 with
    | nil => simp [procrustesResidualSq]
    | cons q m2 =>
      simp only [procrustesResidualSq, List.zipWith_cons_cons, List.sum_cons]
      exact add_nonneg (add_nonneg (sq_nonneg _) (sq_nonneg _)) (ih m2)

/-- Claim C5, counterexample: the claim says every pair with 3 or more
common species yields a Pearson correlation in `[-1, 1]`.  With the
three equal-count tables `dmEqC5`/`smEqC5` the analysis is not skipped,
but both normalised vectors are constant, their variances are zero, and
`np.corrcoef` divides `0/0`: the correlation is `nan`, not a value in
`[-1, 1]`. -/
theorem c5_counterexample :
    plot_procrustes_analysis dmEqC5 smEqC5 =
      some ⟨3, [1/3, 1/3, 1/3], [1/3, 1/3, 1/3]⟩ ∧
    pearsonDefined [1/3, 1/3, 1/3] [1/3, 1/3, 1/3] = false := by
  have hcs : common_species dmEqC5 smEqC5 = ["a".data, "b".data, "c".data] := by decide
  have hd : (["a".data, "b".data, "c".data]).map (lookup0 dmEqC5) = [1, 1, 1] := by decide
  have hs2 : (["a".data, "b".data, "c".data]).map (lookup0 smEqC5) = [2, 2, 2] := by decide
  have hn1 : normalizeAbund [(1 : ℚ), 1, 1] = [1/3, 1/3, 1/3] := by
    norm_num [normalizeAbund]
  have hn2 : normalizeAbund [(2 : ℚ), 2, 2] = [1/3, 1/3, 1/3] := by
    norm_num [normalizeAbund]
  have hm : listMean [(1 : ℚ)/3, 1/3, 1/3] = 1/3 := by norm_num [listMean]
  have hc : centeredList [(1 : ℚ)/3, 1/3, 1/3] = [0, 0, 0] := by
    rw [centeredList, hm]; norm_num
  have hden : pearsonDenSq [(1 : ℚ)/3, 1/3, 1/3] [(1 : ℚ)/3, 1/3, 1/3] = 0 := by
    rw [pearsonDenSq, hc]; norm_num [dotL]
  constructor
  · unfold plot_procrustes_analysis
    rw [hcs, hd, hs2, hn1, hn2]
    norm_num
  · rw [pearsonDefined, hden]
    simp

/-- Claim C5, amended: with fewer than 3 common species the reconciler
returns no statistic (skipped); with 3 or more it hands `procrustes`
and `corrcoef` the normalised common-species vectors, for which the
squared Pearson numerator never exceeds the squared denominator — so
the correlation lies in `[-1, 1]` whenever both variances are nonzero,
and is `nan` otherwise — and every `procrustes` disparity, being a
residual sum of squares, is nonnegative. -/
theorem c5_amended (dm sm : List (List Char × ℚ)) :
    ((common_species dm sm).length < 3 → plot_procrustes_analysis dm sm = none) ∧
    (3 ≤ (common_species dm sm).length →
      ∃ st, plot_procrustes_analysis dm sm = some st ∧
        (pearsonNum st.diamondAbund st.singlemAbund) ^ 2 ≤
          pearsonDenSq st.diamondAbund st.singlemAbund) ∧
    (∀ m1 m2 : List (ℚ × ℚ), 0 ≤ procrustesResidualSq m1 m2) := by
  refine ⟨?_, ?_, procrustesResidualSq_nonneg⟩
  · intro h
    unfold plot_procrustes_analysis
    rw [if_pos h]
  · intro h
    refine ⟨⟨(common_species dm sm).length,
      normalizeAbund ((common_species dm sm).map (lookup0 dm)),
      normalizeAbund ((common_species dm sm).map (lookup0 sm))⟩, ?_, pearson_sq_le _ _⟩
    unfold plot_procrustes_analysis
    rw [if_neg (Nat.not_lt.2 h)]

/-- Witness for `c5_amended`: the three-common-species pair
`dmWC5`/`smWC5` is analysed, and the no-overlap pair
`dmSmallC5`/`smSmallC5` is skipped. -/
theorem c5_amended_witness :
    (3 ≤ (common_species dmWC5 smWC5).length ∧
      ∃ st, plot_procrustes_analysis dmWC5 smWC5 = some st ∧
        (pearsonNum st.diamondAbund st.singlemAbund) ^ 2 ≤
          pearsonDenSq st.diamondAbund st.singlemAbund) ∧
    ((common_species dmSmallC5 smSmallC5).length < 3 ∧
      plot_procrustes_analysis dmSmallC5 smSmallC5 = none) :=
  ⟨⟨by decide, (c5_amended dmWC5 smWC5).2.1 (by decide)⟩,
   ⟨by decide, (c5_amended dmSmallC5 smSmallC5).1 (by decide)⟩⟩
